import Mathlib

/-!
Verification of the request-translation layer in `src/utils/utils.js`:
the JSON-Schema sanitizer (`cleanJsonSchema`), the thought-signature
caches, the OpenAI → Antigravity message converter, and the generation
config builder.  JavaScript values are modelled in two ways:

* `JVal` — a plain JSON tree, used for the outputs of the sanitizer and
  for message contents (which are acyclic values).
* `GVal` over an arena (`List GVal`, nodes addressed by index) — used
  for sanitizer *inputs*, because `cleanJsonSchema` detects cycles with
  a reference-identity `WeakSet`; arena indices model JS object
  identity, so shared references and cycles are representable.

All recursive functions take explicit fuel (a `Nat` they structurally
recurse on) so that every definition is executable and kernel-reducible;
wrappers supply fuel that is always sufficient on acyclic input.
-/

/-- Tree of JSON-like JavaScript values (outputs / acyclic data).
`jundefined` models JS `undefined`, which the source distinguishes from
`null`.  Numbers are modelled as rationals (JS numbers on the inputs the
program handles; NaN does not arise in the modelled paths). -/
inductive JVal where
  | jnull
  | jundefined
  | jbool (b : Bool)
  | jnum (q : Rat)
  | jstr (s : String)
  | jarr (elems : List JVal)
  | jobj (fields : List (String × JVal))
deriving Repr

/-- Arena node for JavaScript values with reference identity: children of
arrays and objects are arena indices (`Nat`), so distinct indices model
distinct JS references and cycles are expressible. -/
inductive GVal where
  | vnull
  | vundefined
  | vbool (b : Bool)
  | vnum (q : Rat)
  | vstr (s : String)
  | varr (elems : List Nat)
  | vobj (fields : List (String × Nat))
deriving DecidableEq, Repr

/-- Reads an arena node; out-of-range indices (never produced by the
encoder) read as `undefined`. -/
def getNode (h : List GVal) (i : Nat) : GVal :=
  h.getD i .vundefined

/-- JS truthiness of an arena node (`!x` in the source): `null`,
`undefined`, `false`, `0` and `""` are falsy; arrays and objects are
always truthy. -/
def jsTruthyG : GVal → Bool
  | .vnull => false
  | .vundefined => false
  | .vbool b => b
  | .vnum q => q != 0
  | .vstr s => s != ""
  | .varr _ => true
  | .vobj _ => true

/-- JS truthiness of a tree value. -/
def jsTruthyJ : JVal → Bool
  | .jnull => false
  | .jundefined => false
  | .jbool b => b
  | .jnum q => q != 0
  | .jstr s => s != ""
  | .jarr _ => true
  | .jobj _ => true

/-- Holds of nodes with JS `typeof x === 'object'` other than `null`
(arrays and plain objects; the source always pairs the `typeof` test
with an explicit `null` check or an earlier `null` return). -/
def isObjTypeG : GVal → Bool
  | .varr _ => true
  | .vobj _ => true
  | _ => false

/-- Whether a node is a non-array, non-null object (the only nodes
`cleanObject` adds to its `visited` set). -/
def isVObjG : GVal → Bool
  | .vobj _ => true
  | _ => false

/-- Whether a node is an array (`Array.isArray`). -/
def isVArrG : GVal → Bool
  | .varr _ => true
  | _ => false

/-- Copies a primitive arena node to a tree value (used where the source
returns a non-object input unchanged; composite nodes never reach these
uses). -/
def gPrimToJ : GVal → JVal
  | .vnull => .jnull
  | .vundefined => .jundefined
  | .vbool b => .jbool b
  | .vnum q => .jnum q
  | .vstr s => .jstr s
  | .varr _ => .jnull
  | .vobj _ => .jnull

/-- JS `String.prototype.trim` (drops leading and trailing whitespace;
the inputs the program handles only use the ASCII whitespace this
covers).  Defined over character lists so that it reduces in the
kernel. -/
def jsTrim (s : String) : String :=
  String.mk
    (((s.toList.dropWhile Char.isWhitespace).reverse.dropWhile
        Char.isWhitespace).reverse)

/-- First value stored under a key in a JS-object field list (JS objects
have unique keys; lookup takes the first binding). -/
def lookupField (fields : List (String × Nat)) (k : String) : Option Nat :=
  match fields with
  | [] => none
  | (k₀, v) :: rest => if k₀ = k then some v else lookupField rest k

/-- Lookup in a tree object's field list. -/
def lookupJ (fields : List (String × JVal)) (k : String) : Option JVal :=
  match fields with
  | [] => none
  | (k₀, v) :: rest => if k₀ = k then some v else lookupJ rest k

/-- JS property assignment `o[k] = v` on an insertion-ordered field
list: an existing key keeps its position and gets the new value, a new
key is appended. -/
def setField (fields : List (String × JVal)) (k : String) (v : JVal) :
    List (String × JVal) :=
  match fields with
  | [] => [(k, v)]
  | (k₀, v₀) :: rest =>
    if k₀ = k then (k₀, v) :: rest else (k₀, v₀) :: setField rest k v

/-- Whether a field list has a key (`hasOwnProperty`). -/
def hasKeyJ (fields : List (String × JVal)) (k : String) : Bool :=
  (lookupJ fields k).isSome

/-- JS `ToString` on a tree value, as used by string coercion (`String(x)`,
string concatenation, template literals).  Arrays join their elements
with commas, rendering `null`/`undefined` elements as empty strings;
plain objects render as `[object Object]`.  Non-integer numbers are
rendered as `numerator/denominator`, an approximation of JS float
printing that no modelled claim depends on. -/
def jsToStringJ : Nat → JVal → String
  | _, .jnull => "null"
  | _, .jundefined => "undefined"
  | _, .jbool b => if b then "true" else "false"
  | _, .jnum q => if q.den = 1 then toString q.num else toString q
  | _, .jstr s => s
  | 0, _ => ""
  | f+1, .jarr xs =>
    String.intercalate ","
      (xs.map fun x =>
        match x with
        | .jnull => ""
        | .jundefined => ""
        | y => jsToStringJ f y)
  | _+1, .jobj _ => "[object Object]"

/-- Deep copy of an arena node into a tree value, modelling the value a
JS reference stored into a freshly built result denotes (results are
compared structurally).  Fuel-bounded; cyclic values exhaust fuel and
yield `none`, which only happens on paths where the modelled program
would itself be degenerate. -/
def deepCopyG (h : List GVal) : Nat → Nat → Option JVal
  | 0, _ => none
  | f+1, i =>
    match getNode h i with
    | .vnull => some .jnull
    | .vundefined => some .jundefined
    | .vbool b => some (.jbool b)
    | .vnum q => some (.jnum q)
    | .vstr s => some (.jstr s)
    | .varr es => (es.mapM (deepCopyG h f)).map .jarr
    | .vobj fs =>
      (fs.mapM (fun kv => (deepCopyG h f kv.2).map fun v => (kv.1, v))).map .jobj

/-- JS `ToString` of an arena node (fuel-bounded through the heap). -/
def jsToStringG (h : List GVal) : Nat → Nat → String
  | 0, _ => ""
  | f+1, i =>
    match getNode h i with
    | .varr es =>
      String.intercalate ","
        (es.map fun j =>
          match getNode h j with
          | .vnull => ""
          | .vundefined => ""
          | _ => jsToStringG h f j)
    | .vobj _ => "[object Object]"
    | v => jsToStringJ 1 (gPrimToJ v)

/-- Gemini-supported primitive type names (`VALID_TYPES` in the source). -/
def validTypeNames : List String :=
  ["string", "number", "integer", "boolean", "array", "object"]

/-- Whitelisted schema keys (`SUPPORTED_KEYS` in the source). -/
def supportedKeys : List String :=
  ["type", "properties", "items", "required", "description", "enum",
    "nullable", "format", "minimum", "maximum", "minItems", "maxItems"]

/-- Format values kept by the sanitizer (`supportedFormats` in the source). -/
def supportedFormatNames : List String :=
  ["date-time", "date", "time", "email", "uri", "uuid"]

/-- Node returned whenever the sanitizer's visited-set check fires. -/
def circularMarker : JVal :=
  .jobj [("type", .jstr "object"), ("description", .jstr "[Circular Reference]")]

/-- Source `isValidEnumValue` on an arena node: rejects `null`,
`undefined` and whitespace-only strings. -/
def isValidEnumValueG : GVal → Bool
  | .vnull => false
  | .vundefined => false
  | .vstr s => jsTrim s != ""
  | _ => true

/-- Source `isValidEnumValue` on a tree value. -/
def isValidEnumValueJ : JVal → Bool
  | .jnull => false
  | .jundefined => false
  | .jstr s => jsTrim s != ""
  | _ => true

/-- Source `inferType` on an arena node (`Number.isInteger` is `den = 1`
on the rational model). -/
def inferTypeG : GVal → String
  | .vnull => "string"
  | .vbool _ => "boolean"
  | .vnum q => if q.den = 1 then "integer" else "number"
  | .varr _ => "array"
  | .vobj _ => "object"
  | _ => "string"

/-- Source `inferType` on a tree value. -/
def inferTypeJ : JVal → String
  | .jnull => "string"
  | .jbool _ => "boolean"
  | .jnum q => if q.den = 1 then "integer" else "number"
  | .jarr _ => "array"
  | .jobj _ => "object"
  | _ => "string"

/-- Source `mapUnknownType`: fixed synonym table on the lowercased name,
defaulting to `string`.  Callers only reach it with string input; on
other input the source would throw (modelled upstream as `none`). -/
def mapUnknownType (t : String) : String :=
  match t.toLower with
  | "int" => "integer"
  | "float" => "number"
  | "double" => "number"
  | "bool" => "boolean"
  | "str" => "string"
  | "list" => "array"
  | "dict" => "object"
  | "map" => "object"
  | "any" => "string"
  | "null" => "string"
  | _ => "string"

/-- JS `SameValueZero` equality as used by `Set` membership, restricted
to the values that actually occur there: primitives compare by value;
composites are distinct references in the source, hence never equal. -/
def primEqJ : JVal → JVal → Bool
  | .jnull, .jnull => true
  | .jundefined, .jundefined => true
  | .jbool a, .jbool b => a == b
  | .jnum a, .jnum b => a == b
  | .jstr a, .jstr b => a == b
  | _, _ => false

/-- `Set.add`: keeps insertion order, ignores an already-present value. -/
def addUniqueJ (l : List JVal) (v : JVal) : List JVal :=
  if l.any (fun w => primEqJ w v) then l else l ++ [v]

/-- `Object.entries` of an arena node: field list of an object, indexed
entries of an array, nothing otherwise. -/
def entriesOfG : GVal → List (String × Nat)
  | .vobj fs => fs
  | .varr es => es.enum.map fun p => (toString p.1, p.2)
  | _ => []

/-- `Object.entries` of a tree value. -/
def entriesOfJ : JVal → List (String × JVal)
  | .jobj fs => fs
  | .jarr es => es.enum.map fun p => (toString p.1, p.2)
  | _ => []

/-- `Object.assign(target, source)`: source entries upsert into target in
order. -/
def assignFields (tgt src : List (String × JVal)) : List (String × JVal) :=
  src.foldl (fun t kv => setField t kv.1 kv.2) tgt

/-- Value of `obj[k]` on an arena object: the stored node, or
`undefined` when the key is absent (exact JS property-read semantics). -/
def fieldNode (h : List GVal) (fields : List (String × Nat)) (k : String) : GVal :=
  match lookupField fields k with
  | some j => getNode h j
  | none => .vundefined

/-- Value of `o[k]` on a built result object (absent reads `undefined`). -/
def fieldJ (fields : List (String × JVal)) (k : String) : JVal :=
  (lookupJ fields k).getD .jundefined

/-- Whether a built result's `type` field strictly equals a given string. -/
def typeFieldIs (fields : List (String × JVal)) (s : String) : Bool :=
  match lookupJ fields "type" with
  | some (.jstr t) => t = s
  | _ => false

/-- Whether a tree value has `typeof x === 'object'` (arrays, objects and
`null`; callers pair this with a truthiness or null check exactly as the
source does). -/
def isObjTypeJ : JVal → Bool
  | .jarr _ => true
  | .jobj _ => true
  | .jnull => true
  | _ => false

/-- Accumulators of the union (`anyOf`/`oneOf`/`allOf`) merge loop. -/
structure UnionAcc where
  props : List (String × JVal)
  hasProps : Bool
  required : List JVal
  enumVals : List JVal
  typeVals : List JVal

/-- Embedding of the source's `cleanObject` closure (utils.js 284-509).
Takes the arena, fuel, the current visited set (indices of objects the
shared `WeakSet` holds) and the index of the value to clean; returns the
cleaned tree together with the visited set as mutated by the call, or
`none` on fuel exhaustion or where the source itself would throw
(`mapUnknownType` on a truthy non-string, non-array `type`). -/
def cleanObjectG (h : List GVal) : Nat → List Nat → Nat → Option (JVal × List Nat)
  | 0, _, _ => none
  | f+1, V0, i =>
    let obj := getNode h i
    -- if (obj === null || obj === undefined) return null;
    if obj == .vnull || obj == .vundefined then some (.jnull, V0)
    -- if (typeof obj === 'object' && visited.has(obj)) return marker;
    else if isObjTypeG obj && V0.contains i then some (circularMarker, V0)
    else
      -- if (typeof obj === 'object' && obj !== null && !Array.isArray(obj)) visited.add(obj);
      let V := if isVObjG obj then i :: V0 else V0
      match obj with
      | .varr es => do
        -- obj.map(item => typeof item === 'object' && item !== null ? cleanObject(item) : item)
        --    .filter(item => item !== null && item !== undefined)
        let st ← es.foldlM
          (fun (st : List JVal × List Nat) j => do
            let it := getNode h j
            if isObjTypeG it then do
              let r ← cleanObjectG h f st.2 j
              pure (st.1 ++ [r.1], r.2)
            else
              pure (st.1 ++ [gPrimToJ it], st.2))
          (([] : List JVal), V)
        pure (.jarr (st.1.filter fun r => !(r matches .jnull) && !(r matches .jundefined)), st.2)
      | .vobj fs =>
        -- if (obj.description) cleaned.description = String(obj.description) — shared by
        -- the union and const early returns:
        let strDesc : List (String × JVal) → List (String × JVal) := fun base =>
          if jsTruthyG (fieldNode h fs "description") then
            setField base "description"
              (.jstr (jsToStringG h (f+1) ((lookupField fs "description").getD 0)))
          else base
        -- ===== 1. $ref =====
        if jsTruthyG (fieldNode h fs "$ref") then
          some (.jobj [("type", .jstr "object"),
            ("description",
              .jstr ("Reference: " ++ jsToStringG h (f+1) ((lookupField fs "$ref").getD 0)))], V)
        else
          -- ===== 2. anyOf / oneOf / allOf =====
          match (["anyOf", "oneOf", "allOf"].findSome? fun k =>
              match lookupField fs k with
              | some j =>
                match getNode h j with
                | .varr es => some (k, es)
                | _ => none
              | none => none) with
          | some (ukey, optIdxs) =>
            let options := optIdxs.filter fun j =>
              jsTruthyG (getNode h j) && isObjTypeG (getNode h j)
            (match options with
            | [] => do
              -- return { type: 'string', description: obj.description || '' };
              let descVal ←
                if jsTruthyG (fieldNode h fs "description") then
                  deepCopyG h (f+1) ((lookupField fs "description").getD 0)
                else pure (.jstr "")
              pure (.jobj [("type", .jstr "string"), ("description", descVal)], V)
            | o0 :: _ => do
              let st ← options.foldlM
                (fun (st : UnionAcc × List Nat) j => do
                  let r ← cleanObjectG h f st.2 j
                  let copt := r.1
                  if !jsTruthyJ copt then pure (st.1, r.2)
                  else
                    let cf := match copt with
                      | .jobj cf => cf
                      | _ => ([] : List (String × JVal))
                    let a := st.1
                    let a := match lookupJ cf "type" with
                      | some tv =>
                        if jsTruthyJ tv then
                          { a with typeVals := addUniqueJ a.typeVals tv }
                        else a
                      | none => a
                    let a := match lookupJ cf "properties" with
                      | some pv =>
                        if jsTruthyJ pv && isObjTypeJ pv then
                          { a with props := assignFields a.props (entriesOfJ pv),
                                   hasProps := true }
                        else a
                      | none => a
                    let a :=
                      if ukey = "allOf" then
                        match lookupJ cf "required" with
                        | some (.jarr rl) => { a with required := rl.foldl addUniqueJ a.required }
                        | _ => a
                      else a
                    let a := match lookupJ cf "enum" with
                      | some (.jarr el) =>
                        { a with enumVals := (el.filter isValidEnumValueJ).foldl addUniqueJ a.enumVals }
                      | _ => a
                    pure (a, r.2))
                (({ props := [], hasProps := false, required := [],
                    enumVals := [], typeVals := [] } : UnionAcc), V)
              let acc := st.1
              let V₁ := st.2
              if acc.hasProps then
                let base := [("type", .jstr "object"), ("properties", .jobj acc.props)]
                let base :=
                  if acc.required.length != 0 then
                    let validRequired := acc.required.filter fun r =>
                      hasKeyJ acc.props (jsToStringJ (f+1) r)
                    if validRequired.length != 0 then
                      base ++ [("required", .jarr validRequired)]
                    else base
                  else base
                pure (.jobj (strDesc base), V₁)
              else if acc.enumVals.length != 0 then
                pure (.jobj (strDesc [("type", .jstr "string"), ("enum", .jarr acc.enumVals)]), V₁)
              else if acc.typeVals.length == 1 then
                pure (.jobj (strDesc [("type", acc.typeVals.headD .jundefined)]), V₁)
              else if acc.typeVals.length > 1 then
                let t :=
                  if acc.typeVals.any (primEqJ · (.jstr "string")) then JVal.jstr "string"
                  else if acc.typeVals.any (primEqJ · (.jstr "object")) then JVal.jstr "object"
                  else acc.typeVals.headD .jundefined
                pure (.jobj (strDesc [("type", t)]), V₁)
              else
                -- return cleanObject(options[0]);  (options[0] is already in the
                -- visited set when it is a plain object, so this re-clean yields
                -- the circular marker for it)
                cleanObjectG h f V₁ o0)
          | none =>
            -- ===== 3. const -> enum =====
            if !(fieldNode h fs "const" == .vundefined) then
              let cv := fieldNode h fs "const"
              if !isValidEnumValueG cv then
                some (.jobj (strDesc [("type", .jstr (inferTypeG cv))]), V)
              else do
                let copy ← deepCopyG h (f+1) ((lookupField fs "const").getD 0)
                pure (.jobj (strDesc [("type", .jstr (inferTypeG cv)), ("enum", .jarr [copy])]), V)
            else do
              -- ===== 4. type resolution =====
              let cleanedT : List (String × JVal) ←
                if !jsTruthyG (fieldNode h fs "type") then some []
                else
                  match fieldNode h fs "type" with
                  | .varr ts =>
                    let validTypes := ts.filter fun j =>
                      match getNode h j with
                      | .vstr s => validTypeNames.contains s
                      | _ => false
                    some (match validTypes with
                      | [] => [("type", .jstr "string")]
                      | j0 :: _ =>
                        -- validTypes.includes('null') is vacuously false, because
                        -- "null" is not in VALID_TYPES; the branch is kept faithfully
                        if validTypes.any (fun j => getNode h j == .vstr "null") then
                          let tv : JVal :=
                            match validTypes.find? (fun j => !(getNode h j == .vstr "null")) with
                            | some j => gPrimToJ (getNode h j)
                            | none => .jstr "string"
                          [("type", tv), ("nullable", .jbool true)]
                        else [("type", gPrimToJ (getNode h j0))])
                  | .vstr s =>
                    if validTypeNames.contains s then some [("type", .jstr s)]
                    else some [("type", .jstr (mapUnknownType s))]
                  | _ =>
                    -- truthy non-string, non-array type: `type?.toLowerCase()` throws
                    none
              -- ===== 5. whitelist loop over Object.entries(obj) =====
              let st5 ← fs.foldlM
                (fun (st : List (String × JVal) × Option (List String) × List Nat) kv => do
                  let k := kv.1
                  let v := getNode h kv.2
                  if !supportedKeys.contains k || k == "type" then pure st
                  else if k == "properties" then
                    if isObjTypeG v then do
                      let inner ← (entriesOfG v).foldlM
                        (fun (ist : List (String × JVal) × List Nat) pkv => do
                          if pkv.1 == "" then pure ist
                          else do
                            let r ← cleanObjectG h f ist.2 pkv.2
                            if jsTruthyJ r.1 then pure (setField ist.1 pkv.1 r.1, r.2)
                            else pure (ist.1, r.2))
                        (([] : List (String × JVal)), st.2.2)
                      if inner.1.length != 0 then
                        pure (setField st.1 "properties" (.jobj inner.1), st.2.1, inner.2)
                      else pure (st.1, st.2.1, inner.2)
                    else pure st
                  else if k == "items" then
                    if isObjTypeG v || v == .vnull then do
                      let r ← cleanObjectG h f st.2.2 kv.2
                      if jsTruthyJ r.1 then pure (setField st.1 "items" r.1, st.2.1, r.2)
                      else pure (st.1, st.2.1, r.2)
                    else pure st
                  else if k == "enum" then
                    match v with
                    | .varr es =>
                      let fe := es.filter fun j => isValidEnumValueG (getNode h j)
                      if fe.length != 0 then do
                        let copies ← fe.mapM (deepCopyG h f)
                        pure (setField st.1 "enum" (.jarr copies), st.2.1, st.2.2)
                      else pure st
                    | _ => pure st
                  else if k == "required" then
                    match v with
                    | .varr es =>
                      let rs := es.filterMap fun j =>
                        match getNode h j with
                        | .vstr s => if jsTrim s != "" then some s else none
                        | _ => none
                      pure (st.1, some rs, st.2.2)
                    | _ => pure st
                  else if k == "description" then
                    if jsTruthyG v then
                      match v with
                      | .vstr s => pure (setField st.1 "description" (.jstr s), st.2.1, st.2.2)
                      | _ =>
                        pure (setField st.1 "description"
                          (.jstr (jsToStringG h (f+1) kv.2)), st.2.1, st.2.2)
                    else pure st
                  else if k == "nullable" then
                    pure (setField st.1 "nullable" (.jbool (jsTruthyG v)), st.2.1, st.2.2)
                  else if k == "minimum" || k == "maximum" || k == "minItems" || k == "maxItems" then
                    match v with
                    | .vnum q => pure (setField st.1 k (.jnum q), st.2.1, st.2.2)
                    | _ => pure st
                  else if k == "format" then
                    match v with
                    | .vstr s =>
                      if supportedFormatNames.contains s then
                        pure (setField st.1 "format" (.jstr s), st.2.1, st.2.2)
                      else pure st
                    | _ => pure st
                  else pure st)
                (cleanedT, (none : Option (List String)), V)
              let pending := st5.2.1
              let V₂ := st5.2.2
              -- ===== 6. validate required =====
              let cl :=
                match pending, lookupJ st5.1 "properties" with
                | some pend, some (.jobj pf) =>
                  let vr := pend.filter fun r => hasKeyJ pf r
                  if vr.length != 0 then setField st5.1 "required" (.jarr (vr.map .jstr))
                  else st5.1
                | _, _ => st5.1
              -- ===== 7. type back-fill =====
              let cl :=
                if jsTruthyJ (fieldJ cl "type") then cl
                else if jsTruthyJ (fieldJ cl "properties") then setField cl "type" (.jstr "object")
                else if jsTruthyJ (fieldJ cl "items") then setField cl "type" (.jstr "array")
                else if jsTruthyJ (fieldJ cl "enum") then
                  setField cl "type" (.jstr (inferTypeJ (match lookupJ cl "enum" with
                    | some (.jarr (e :: _)) => e
                    | _ => .jundefined)))
                else setField cl "type" (.jstr "string")
              -- ===== 8. consistency =====
              let cl :=
                if typeFieldIs cl "array" && !jsTruthyJ (fieldJ cl "items") then
                  setField cl "items" (.jobj [("type", .jstr "string")])
                else cl
              let cl :=
                if typeFieldIs cl "object" && !jsTruthyJ (fieldJ cl "properties") then
                  setField cl "properties" (.jobj [])
                else cl
              pure (.jobj cl, V₂)
      | p =>
        -- if (typeof obj !== 'object') return obj;
        some (gPrimToJ p, V)

/-- Embedding of `cleanJsonSchema(schema)` (utils.js 253-512) on an arena
root.  All call sites use the default fresh `visited`, so the initial
`visited.has(schema)` check is `false`; the root is then added to the
set before `cleanObject(schema)` runs — which is why `cleanObject`
immediately sees the root as visited. -/
def cleanJsonSchemaG (h : List GVal) (f : Nat) (r : Nat) : Option JVal :=
  match getNode h r with
  | .vnull => some .jnull
  | .vundefined => some .jundefined
  | .vbool b => some (.jbool b)
  | .vnum q => some (.jnum q)
  | .vstr s => some (.jstr s)
  | _ => (cleanObjectG h f [r] r).map fun p => p.1

/-- Encodes a JSON tree into an arena bottom-up, returning the root index
(nodes get fresh indices, matching the fresh JS object references a
literal tree denotes).  Fuel-bounded; `sizeOf` fuel always suffices. -/
def encodeTreeG : Nat → JVal → List GVal → Option (Nat × List GVal)
  | 0, _, _ => none
  | _+1, .jnull, h => some (h.length, h ++ [.vnull])
  | _+1, .jundefined, h => some (h.length, h ++ [.vundefined])
  | _+1, .jbool b, h => some (h.length, h ++ [.vbool b])
  | _+1, .jnum q, h => some (h.length, h ++ [.vnum q])
  | _+1, .jstr s, h => some (h.length, h ++ [.vstr s])
  | f+1, .jarr xs, h => do
    let st ← xs.foldlM
      (fun (st : List Nat × List GVal) x => do
        let r ← encodeTreeG f x st.2
        pure (st.1 ++ [r.1], r.2))
      (([] : List Nat), h)
    pure (st.2.length, st.2 ++ [.varr st.1])
  | f+1, .jobj fsx, h => do
    let st ← fsx.foldlM
      (fun (st : List (String × Nat) × List GVal) kv => do
        let r ← encodeTreeG f kv.2 st.2
        pure (st.1 ++ [(kv.1, r.1)], r.2))
      (([] : List (String × Nat)), h)
    pure (st.2.length, st.2 ++ [.vobj st.1])

/-- `cleanJsonSchema` applied to a JSON tree (an acyclic input, as JSON
values are): encode the tree into an arena, then run the sanitizer.
The fuel `f` bounds both phases; any fuel large enough for the tree
gives the same result, and `none` is returned otherwise. -/
def cleanJsonSchemaT (t : JVal) (f : Nat) : Option JVal :=
  (encodeTreeG f t []).bind fun rh => cleanJsonSchemaG rh.2 f rh.1

/-- Opening tag scanned by `normalizeTextForSignature`. -/
def openThinkPat : List Char := "<think>".toList

/-- Closing tag scanned by `normalizeTextForSignature`. -/
def closeThinkPat : List Char := "</think>".toList

/-- Drops input up to and including the first occurrence of `pat`;
`none` when `pat` does not occur. -/
def dropAfterPat (pat : List Char) : List Char → Option (List Char)
  | [] => none
  | c :: rest =>
    if pat.isPrefixOf (c :: rest) then some ((c :: rest).drop pat.length)
    else dropAfterPat pat rest

/-- One global-replace pass of `/<think>[\s\S]*?<\/think>/g` with the
empty string: at each position, a `<think>` with a close ahead is
removed up to the nearest `</think>`; otherwise the character passes
through.  Each step consumes at least one character, so fuel
`length + 1` never runs out. -/
def stripThinkAux : Nat → List Char → List Char
  | 0, l => l
  | _+1, [] => []
  | f+1, c :: rest =>
    if openThinkPat.isPrefixOf (c :: rest) then
      match dropAfterPat closeThinkPat ((c :: rest).drop openThinkPat.length) with
      | some rem => stripThinkAux f rem
      | none => c :: stripThinkAux f rest
    else c :: stripThinkAux f rest

/-- Attempts to match the markdown-image regex `!\[[^\]]*]\([^)]+\)` at
the head of the input, returning the remainder after the match. -/
def matchImageAt : List Char → Option (List Char)
  | '!' :: '[' :: rest =>
    (match rest.dropWhile (· != ']') with
    | ']' :: '(' :: rest₂ =>
      let url := rest₂.takeWhile (· != ')')
      if url.isEmpty then none
      else
        match rest₂.dropWhile (· != ')') with
        | ')' :: rem => some rem
        | _ => none
    | _ => none)
  | _ => none

/-- One global-replace pass of the markdown-image regex with the empty
string. -/
def stripImagesAux : Nat → List Char → List Char
  | 0, l => l
  | _+1, [] => []
  | f+1, c :: rest =>
    match matchImageAt (c :: rest) with
    | some rem => stripImagesAux f rem
    | none => c :: stripImagesAux f rest

/-- Global replace of `\r\n` by `\n`. -/
def replaceCrlf : List Char → List Char
  | [] => []
  | '\r' :: '\n' :: rest => '\n' :: replaceCrlf rest
  | c :: rest => c :: replaceCrlf rest

/-- Source `normalizeTextForSignature` (utils.js 21-28): strip
`<think>` blocks, strip markdown images, normalize CRLF, trim.  All
call sites pass strings, so the non-string guard is not modelled. -/
def normalizeTextForSignature (text : String) : String :=
  jsTrim (String.mk (replaceCrlf
    (stripImagesAux (text.length + 1)
      (stripThinkAux (text.length + 1) text.toList))))

/-- Entry of the text-keyed signature cache: the opaque signature and the
original text it was registered for. -/
structure SigEntry where
  signature : String
  text : String
deriving DecidableEq, Repr

/-- JS `Map.set`: replaces the value of an existing key in place,
appends a new key. -/
def jsMapSet {α : Type} (m : List (String × α)) (k : String) (v : α) :
    List (String × α) :=
  match m with
  | [] => [(k, v)]
  | (k₀, v₀) :: rest =>
    if k₀ = k then (k₀, v) :: rest else (k₀, v₀) :: jsMapSet rest k v

/-- JS `Map.get` (and `Map.has` via `isSome`). -/
def jsMapGet {α : Type} (m : List (String × α)) (k : String) : Option α :=
  match m with
  | [] => none
  | (k₀, v) :: rest => if k₀ = k then some v else jsMapGet rest k

/-- Source `registerThoughtSignature` (utils.js 11-14); ids and
signatures are strings at every call site, so JS truthiness is the
non-emptiness test. -/
def registerThoughtSignature (m : List (String × String)) (id sig : String) :
    List (String × String) :=
  if id == "" || sig == "" then m else jsMapSet m id sig

/-- Source `getThoughtSignature` (utils.js 16-19). -/
def getThoughtSignature (m : List (String × String)) (id : String) : Option String :=
  if id == "" then none else jsMapGet m id

/-- Source `registerTextThoughtSignature` (utils.js 30-45): stores the
payload under the original text, the normalized text and, when distinct
from the normalized form, the trimmed text. -/
def registerTextThoughtSignature (m : List (String × SigEntry)) (text sig : String) :
    List (String × SigEntry) :=
  if text == "" || sig == "" then m
  else
    let originalText := text
    let trimmed := jsTrim originalText
    let normalized := normalizeTextForSignature trimmed
    let payload : SigEntry := ⟨sig, originalText⟩
    let m := if originalText != "" then jsMapSet m originalText payload else m
    let m := if normalized != "" then jsMapSet m normalized payload else m
    let m :=
      if trimmed != "" && trimmed != normalized then jsMapSet m trimmed payload
      else m
    m

/-- Source `getTextThoughtSignature` (utils.js 47-59): raw, then trimmed,
then normalized lookup; whitespace-only input always misses. -/
def getTextThoughtSignature (m : List (String × SigEntry)) (text : String) :
    Option SigEntry :=
  if jsTrim text == "" then none
  else
    match jsMapGet m text with
    | some e => some e
    | none =>
      let trimmed := jsTrim text
      match jsMapGet m trimmed with
      | some e => some e
      | none =>
        let normalized := normalizeTextForSignature trimmed
        if normalized == "" then none
        else jsMapGet m normalized

/-- JS `ToString` on tree values for the message-conversion layer
(fuel-free; same semantics as `jsToStringJ` with sufficient fuel). -/
def jsToStr (v : JVal) : String :=
  match v with
  | .jnull => "null"
  | .jundefined => "undefined"
  | .jbool b => if b then "true" else "false"
  | .jnum q => if q.den = 1 then toString q.num else toString q
  | .jstr s => s
  | .jobj _ => "[object Object]"
  | .jarr xs =>
    String.intercalate ","
      (xs.attach.map fun x =>
        if (x.1 matches .jnull) || (x.1 matches .jundefined) then "" else jsToStr x.1)
termination_by sizeOf v
decreasing_by
  simp_wf
  have := List.sizeOf_lt_of_mem x.2
  omega

/-- JSON string-literal escaping as produced by `JSON.stringify`. -/
def escapeJsonString (s : String) : String :=
  s.toList.foldl
    (fun acc c =>
      acc ++
        (if c = '"' then "\\\""
         else if c = '\\' then "\\\\"
         else if c = '\n' then "\\n"
         else if c = '\r' then "\\r"
         else if c = '\t' then "\\t"
         else if c.toNat < 32 then "\\u" ++ (Nat.toDigits 16 c.toNat).asString
         else String.singleton c))
    ""

/-- `JSON.stringify`: `none` models the `undefined` result (top-level
`undefined`); inside arrays `undefined` renders as `null`, inside
objects such entries are skipped. -/
def jsonStringify (v : JVal) : Option String :=
  match v with
  | .jundefined => none
  | .jnull => some "null"
  | .jbool b => some (if b then "true" else "false")
  | .jnum q => some (if q.den = 1 then toString q.num else toString q)
  | .jstr s => some ("\"" ++ escapeJsonString s ++ "\"")
  | .jarr xs =>
    some ("[" ++ String.intercalate ","
      (xs.attach.map fun x => (jsonStringify x.1).getD "null") ++ "]")
  | .jobj fs =>
    some ("\x7b" ++ String.intercalate ","
      (fs.attach.filterMap fun kv =>
        (jsonStringify kv.1.2).map fun sv =>
          "\"" ++ escapeJsonString kv.1.1 ++ "\":" ++ sv) ++ "\x7d")
termination_by sizeOf v
decreasing_by
  · simp_wf
    have := List.sizeOf_lt_of_mem x.2
    omega
  · obtain ⟨⟨k, w⟩, hm⟩ := kv
    simp_wf
    have := List.sizeOf_lt_of_mem hm
    simp [Prod.mk.sizeOf_spec] at this ⊢
    omega

/-- Skips JSON whitespace (space, tab, newline, carriage return). -/
def skipJsonWs : List Char → List Char
  | c :: rest =>
    if c = ' ' || c = '\t' || c = '\n' || c = '\r' then skipJsonWs rest
    else c :: rest
  | [] => []

/-- Value of a hexadecimal digit. -/
def hexDigitVal (c : Char) : Option Nat :=
  if c.isDigit then some (c.toNat - 48)
  else if 'a' ≤ c && c ≤ 'f' then some (c.toNat - 87)
  else if 'A' ≤ c && c ≤ 'F' then some (c.toNat - 55)
  else none

/-- Parses the body of a JSON string literal after the opening quote,
returning content and remainder.  Lone-surrogate escapes (invalid Lean
`Char`) degrade to code point 0; no modelled input contains them. -/
def parseJsonStringAux : List Char → Option (List Char × List Char)
  | [] => none
  | '"' :: rest => some ([], rest)
  | '\\' :: esc =>
    (match esc with
    | '"' :: r => (parseJsonStringAux r).map fun p => ('"' :: p.1, p.2)
    | '\\' :: r => (parseJsonStringAux r).map fun p => ('\\' :: p.1, p.2)
    | '/' :: r => (parseJsonStringAux r).map fun p => ('/' :: p.1, p.2)
    | 'b' :: r => (parseJsonStringAux r).map fun p => (Char.ofNat 8 :: p.1, p.2)
    | 'f' :: r => (parseJsonStringAux r).map fun p => (Char.ofNat 12 :: p.1, p.2)
    | 'n' :: r => (parseJsonStringAux r).map fun p => ('\n' :: p.1, p.2)
    | 'r' :: r => (parseJsonStringAux r).map fun p => ('\r' :: p.1, p.2)
    | 't' :: r => (parseJsonStringAux r).map fun p => ('\t' :: p.1, p.2)
    | 'u' :: a :: b :: c :: d :: r =>
      match hexDigitVal a, hexDigitVal b, hexDigitVal c, hexDigitVal d with
      | some x, some y, some z, some w =>
        (parseJsonStringAux r).map fun p =>
          (Char.ofNat (x * 4096 + y * 256 + z * 16 + w) :: p.1, p.2)
      | _, _, _, _ => none
    | _ => none)
  | c :: rest =>
    if c.toNat < 32 then none
    else (parseJsonStringAux rest).map fun p => (c :: p.1, p.2)
termination_by l => l.length
decreasing_by all_goals simp_wf <;> omega

/-- Numeric value of a digit run. -/
def digitsVal (ds : List Char) : Nat :=
  ds.foldl (fun a c => a * 10 + (c.toNat - 48)) 0

/-- Parses a JSON number at the head of the input (sign, integer part
without redundant leading zero, optional fraction, optional exponent). -/
def parseJsonNumber (l : List Char) : Option (JVal × List Char) :=
  let (neg, l₁) := match l with
    | '-' :: r => (true, r)
    | _ => (false, l)
  let ds := l₁.takeWhile Char.isDigit
  let r₁ := l₁.dropWhile Char.isDigit
  if ds.isEmpty then none
  else if ds.length > 1 && ds.headD '0' = '0' then none
  else
    let withFrac : Option (List Char × List Char) :=
      match r₁ with
      | '.' :: rr =>
        let fds := rr.takeWhile Char.isDigit
        if fds.isEmpty then none else some (fds, rr.dropWhile Char.isDigit)
      | _ => some ([], r₁)
    match withFrac with
    | none => none
    | some (fds, r₂) =>
      let withExp : Option (Bool × List Char × List Char) :=
        match r₂ with
        | 'e' :: rr | 'E' :: rr =>
          let (en, rr₂) := match rr with
            | '+' :: x => (false, x)
            | '-' :: x => (true, x)
            | _ => (false, rr)
          let eds := rr₂.takeWhile Char.isDigit
          if eds.isEmpty then none else some (en, eds, rr₂.dropWhile Char.isDigit)
        | _ => some (false, [], r₂)
      match withExp with
      | none => none
      | some (en, eds, r₃) =>
        let mantissa : Rat :=
          ((digitsVal ds : Rat) * (10 : Rat) ^ fds.length + (digitsVal fds : Rat)) /
            (10 : Rat) ^ fds.length
        let scaled : Rat :=
          if eds.isEmpty then mantissa
          else if en then mantissa / (10 : Rat) ^ digitsVal eds
          else mantissa * (10 : Rat) ^ digitsVal eds
        some (.jnum (if neg then -scaled else scaled), r₃)

mutual

/-- Recursive-descent `JSON.parse` value parser; the fuel decreases on
every element and nesting step, so `input length + 1` always suffices. -/
def parseJsonValue : Nat → List Char → Option (JVal × List Char)
  | 0, _ => none
  | f+1, l =>
    match skipJsonWs l with
    | 't' :: 'r' :: 'u' :: 'e' :: r => some (.jbool true, r)
    | 'f' :: 'a' :: 'l' :: 's' :: 'e' :: r => some (.jbool false, r)
    | 'n' :: 'u' :: 'l' :: 'l' :: r => some (.jnull, r)
    | '"' :: r => (parseJsonStringAux r).map fun p => (.jstr (String.mk p.1), p.2)
    | '[' :: r =>
      (match skipJsonWs r with
      | ']' :: r₂ => some (.jarr [], r₂)
      | r₁ => (parseJsonArrayTail f r₁ []).map fun p => (.jarr p.1, p.2))
    | '{' :: r =>
      (match skipJsonWs r with
      | '}' :: r₂ => some (.jobj [], r₂)
      | r₁ => (parseJsonObjectTail f r₁ []).map fun p => (.jobj p.1, p.2))
    | l₁ => parseJsonNumber l₁

/-- Parses `value (, value)* ]` of a JSON array. -/
def parseJsonArrayTail : Nat → List Char → List JVal → Option (List JVal × List Char)
  | 0, _, _ => none
  | f+1, l, acc => do
    let (v, r) ← parseJsonValue f l
    match skipJsonWs r with
    | ',' :: r₂ => parseJsonArrayTail f r₂ (acc ++ [v])
    | ']' :: r₂ => some (acc ++ [v], r₂)
    | _ => none

/-- Parses `"key": value (, "key": value)* }` of a JSON object. -/
def parseJsonObjectTail : Nat → List Char → List (String × JVal) →
    Option (List (String × JVal) × List Char)
  | 0, _, _ => none
  | f+1, l, acc => do
    match skipJsonWs l with
    | '"' :: r => do
      let (ks, r₁) ← parseJsonStringAux r
      match skipJsonWs r₁ with
      | ':' :: r₂ => do
        let (v, r₃) ← parseJsonValue f r₂
        let acc₂ := setField acc (String.mk ks) v
        match skipJsonWs r₃ with
        | ',' :: r₄ => parseJsonObjectTail f r₄ acc₂
        | '}' :: r₄ => some (acc₂, r₄)
        | _ => none
      | _ => none
    | _ => none

end

/-- `JSON.parse`: parse one value and require only whitespace after it;
`none` models a thrown `SyntaxError`. -/
def parseJson (s : String) : Option JVal :=
  (parseJsonValue (s.length + 1) s.toList).bind fun p =>
    if (skipJsonWs p.2).isEmpty then some p.1 else none

/-- One OpenAI-style tool call (`toolCall.id`, `toolCall.function.name`,
`toolCall.function.arguments`; arguments may be a serialized string or
an already-structured value, hence `JVal`). -/
structure ToolCallRec where
  id : String
  name : String
  arguments : JVal
deriving Repr

/-- One OpenAI-style chat message as consumed by the converter.  `content`
is an arbitrary JS value (string, array of typed fragments, object,
absent = `jundefined`); `tool_calls` is empty when absent (both are falsy the
same way in every use); `tool_call_id` is only read for tool messages. -/
structure OAIMessage where
  role : String
  content : JVal
  tool_calls : List ToolCallRec
  tool_call_id : String
deriving Repr

/-- One part of a backend (Antigravity/Gemini) turn. -/
inductive TurnPart where
  | text (content : String) (thoughtSignature : Option String)
  | inlineData (mimeType : String) (data : String)
  | functionCall (id : String) (name : String) (args : JVal)
      (thoughtSignature : Option String)
  | functionResponse (id : String) (name : String) (output : JVal)
deriving Repr

/-- One backend turn (`{role, parts}`). -/
structure AntMsg where
  role : String
  parts : List TurnPart
deriving Repr

/-- Whether a part is a function response (`p.functionResponse` truthy). -/
def isFunctionResponsePart : TurnPart → Bool
  | .functionResponse _ _ _ => true
  | _ => false

/-- Whether a part is a function call (`p.functionCall` truthy). -/
def isFunctionCallPart : TurnPart → Bool
  | .functionCall _ _ _ _ => true
  | _ => false

/-- Property read `v[k]` on an arbitrary tree value: objects look up the
key, everything else reads `undefined`. -/
def fieldOfJ (v : JVal) (k : String) : JVal :=
  match v with
  | .jobj fs => fieldJ fs k
  | _ => .jundefined

/-- Strict equality of a tree value with a string literal. -/
def isStrVal (v : JVal) (s : String) : Bool :=
  match v with
  | .jstr t => t = s
  | _ => false

/-- Whether `pat` occurs as a contiguous sublist of `l`. -/
def listInfix (pat l : List Char) : Bool :=
  match l with
  | [] => pat.isEmpty
  | _ :: rest => pat.isPrefixOf l || listInfix pat rest

/-- `s.includes(pat)`. -/
def strContains (s pat : String) : Bool :=
  listInfix pat.toList s.toList

/-- Parses `data:image/(\w+);base64,(.+)` URLs (the `.` of the regex
does not match line terminators).  Returns `(format, base64 data)`. -/
def parseDataImageUrl (url : String) : Option (String × String) :=
  let l := url.toList
  let pre := "data:image/".toList
  if pre.isPrefixOf l then
    let rest := l.drop pre.length
    let fmt := rest.takeWhile fun c => c.isAlphanum || c = '_'
    let rest₂ := rest.dropWhile fun c => c.isAlphanum || c = '_'
    if fmt.isEmpty then none
    else
      let b64pre := ";base64,".toList
      if b64pre.isPrefixOf rest₂ then
        let data := rest₂.drop b64pre.length
        if data.isEmpty || data.any (fun c => c = '\n' || c = '\r') then none
        else some (String.mk fmt, String.mk data)
      else none
  else none

/-- Source `extractImagesFromContent` (utils.js 61-96): returns the
concatenated text (string concatenation coerces non-string `item.text`
values) and the inline-image parts parsed from data URLs.  A non-string
`image_url.url` would make the source throw on `.match`; it is modelled
as a failed match (no claim touches that corner). -/
def extractImagesFromContent (content : JVal) : String × List TurnPart :=
  match content with
  | .jstr s => (s, [])
  | .jarr items =>
    items.foldl
      (fun (acc : String × List TurnPart) item =>
        if isStrVal (fieldOfJ item "type") "text" then
          (acc.1 ++ jsToStr (fieldOfJ item "text"), acc.2)
        else if isStrVal (fieldOfJ item "type") "image_url" then
          let urlVal := fieldOfJ (fieldOfJ item "image_url") "url"
          let url := if jsTruthyJ urlVal then urlVal else .jstr ""
          match url with
          | .jstr us =>
            match parseDataImageUrl us with
            | some (fmt, data) =>
              (acc.1, acc.2 ++ [TurnPart.inlineData ("image/" ++ fmt) data])
            | none => acc
          | _ => acc
        else acc)
      ("", [])
  | _ => ("", [])

/-- Source `handleUserMessage` (utils.js 97-107). -/
def handleUserMessage (extracted : String × List TurnPart) (msgs : List AntMsg) :
    List AntMsg :=
  msgs ++ [⟨"user", TurnPart.text extracted.1 none :: extracted.2⟩]

/-- First function-call part of a turn matching the call id (the inner
loop of the lookback in `handleToolCall`, which breaks on the first id
match whatever its name). -/
def findFunctionNamePart (parts : List TurnPart) (callId : String) : Option String :=
  parts.findSome? fun p =>
    match p with
    | .functionCall cid nm _ _ => if cid = callId then some nm else none
    | _ => none

/-- Backward scan of `handleToolCall` (utils.js 110-122): walk turns from
the end; in each `model` turn take the first id-matching function call;
`if (functionName) break` means an empty resolved name keeps searching
earlier turns; unresolved ids give the empty string. -/
def findFunctionNameAux (msgs : List AntMsg) (callId : String) : String :=
  match msgs with
  | [] => ""
  | m :: rest =>
    if m.role == "model" then
      match findFunctionNamePart m.parts callId with
      | some nm => if nm != "" then nm else findFunctionNameAux rest callId
      | none => findFunctionNameAux rest callId
    else findFunctionNameAux rest callId

/-- Name lookback over the accumulated output (most recent turn first). -/
def findFunctionName (msgs : List AntMsg) (callId : String) : String :=
  findFunctionNameAux msgs.reverse callId

/-- Output normalization of `handleToolCall` (utils.js 124-133): a
non-null object (arrays included) is unwrapped to its truthy `text`
property or serialized; everything else passes through.  The source's
`Array.isArray` branch is unreachable (arrays are caught by the first
branch) and correspondingly absent here. -/
def toolOutput (content : JVal) : JVal :=
  match content with
  | .jobj _ | .jarr _ =>
    let t := fieldOfJ content "text"
    if jsTruthyJ t then t else .jstr ((jsonStringify content).getD "undefined")
  | v => v

/-- Function-response part built by `handleToolCall` for one tool turn
given the output accumulated so far (name resolution looks back into
it). -/
def mkFunctionResponse (msgs : List AntMsg) (message : OAIMessage) : TurnPart :=
  .functionResponse message.tool_call_id
    (findFunctionName msgs message.tool_call_id)
    (toolOutput message.content)

/-- Source `handleToolCall` (utils.js 108-155): append the response part
to the previous turn when it is a `user` turn already holding a function
response, else start a new `user` turn. -/
def handleToolCall (message : OAIMessage) (msgs : List AntMsg) : List AntMsg :=
  let fr := mkFunctionResponse msgs message
  match msgs.getLast? with
  | some lastm =>
    if lastm.role == "user" && lastm.parts.any isFunctionResponsePart then
      msgs.dropLast ++ [⟨lastm.role, lastm.parts ++ [fr]⟩]
    else msgs ++ [⟨"user", [fr]⟩]
  | none => msgs ++ [⟨"user", [fr]⟩]

/-- Text extraction of `handleAssistantMessage` (utils.js 718-729):
concatenate the `text` of text-typed fragments (`item.text || ''`,
joined; `join` coerces non-string values), a string content is taken
as-is, anything else yields the empty string. -/
def assistantContentText (content : JVal) : String :=
  if jsTruthyJ content then
    match content with
    | .jarr items =>
      String.join (items.filterMap fun item =>
        if isStrVal (fieldOfJ item "type") "text" then
          some (let t := fieldOfJ item "text"
                if jsTruthyJ t then jsToStr t else "")
        else none)
    | .jstr s => s
    | _ => ""
  else ""

/-- Function-call part built for one tool call (utils.js 733-759):
string arguments are `JSON.parse`d with `{}` on failure, object-typeof
arguments (`null` included) pass through, anything else leaves the
initial `{}`; an id-cached signature is attached when truthy. -/
def mkFunctionCallPart (idMap : List (String × String)) (tc : ToolCallRec) : TurnPart :=
  let args : JVal :=
    match tc.arguments with
    | .jstr s =>
      match parseJson s with
      | some v => v
      | none => .jobj []
    | .jobj _ => tc.arguments
    | .jarr _ => tc.arguments
    | .jnull => tc.arguments
    | _ => .jobj []
  match getThoughtSignature idMap tc.id with
  | some s =>
    if s != "" then .functionCall tc.id tc.name args (some s)
    else .functionCall tc.id tc.name args none
  | none => .functionCall tc.id tc.name args none

/-- Text part built for a non-empty assistant text (utils.js 772-780):
when the model is signature-eligible and the text-keyed cache has an
entry, the entry's original text is sent (`textThoughtSignature?.text ??
contentText`) together with its signature; otherwise the extracted text
is sent plain. -/
def assistantTextPart (allow : Bool) (textMap : List (String × SigEntry))
    (contentText : String) : TurnPart :=
  let entry := if allow then getTextThoughtSignature textMap contentText else none
  match entry with
  | some e =>
    .text e.text (if allow && e.signature != "" then some e.signature else none)
  | none => .text contentText none

/-- Source `handleAssistantMessage` (utils.js 713-789): tool-call-only
turns merge into a preceding `model` turn; otherwise a new `model` turn
is pushed with the text part (if any) followed by the function-call
parts. -/
def handleAssistantMessage (modelName : String) (idMap : List (String × String))
    (textMap : List (String × SigEntry)) (message : OAIMessage)
    (msgs : List AntMsg) : List AntMsg :=
  let hasToolCalls := 0 < message.tool_calls.length
  let allow := strContains modelName "gemini-3"
  let contentText := assistantContentText message.content
  let hasContent := jsTrim contentText != ""
  let antigravityTools :=
    if hasToolCalls then message.tool_calls.map (mkFunctionCallPart idMap) else []
  let pushNew :=
    msgs ++ [⟨"model",
      (if hasContent then [assistantTextPart allow textMap contentText] else [])
        ++ antigravityTools⟩]
  match msgs.getLast? with
  | some lastm =>
    if lastm.role == "model" && hasToolCalls && !hasContent then
      msgs.dropLast ++ [⟨lastm.role, lastm.parts ++ antigravityTools⟩]
    else pushNew
  | none => pushNew

/-- Source `openaiMessageToAntigravity` (utils.js 156-171): fold the
turns, dispatching on role; `system` (and any other role) is skipped. -/
def openaiMessageToAntigravity (idMap : List (String × String))
    (textMap : List (String × SigEntry)) (openaiMessages : List OAIMessage)
    (modelName : String) : List AntMsg :=
  openaiMessages.foldl
    (fun msgs message =>
      if message.role == "user" then
        handleUserMessage (extractImagesFromContent message.content) msgs
      else if message.role == "assistant" then
        handleAssistantMessage modelName idMap textMap message msgs
      else if message.role == "tool" then
        handleToolCall message msgs
      else msgs)
    []

/-- Per-request sampling parameters (absent values use config defaults
via `??`, hence `Option`). -/
structure GenParams where
  top_p : Option Rat
  top_k : Option Rat
  temperature : Option Rat
  max_tokens : Option Rat
deriving Repr

/-- Modelled from the spec: the configuration module
(`src/config/config.js`, not under src/) supplies default sampling
parameters `top_p, top_k, temperature, max_tokens`; their values are
opaque, so they are parameters of the model. -/
structure ConfigDefaults where
  top_p : Rat
  top_k : Rat
  temperature : Rat
  max_tokens : Rat
deriving Repr

/-- The `thinkingConfig` sub-object of the generation config. -/
structure ThinkingConfig where
  includeThoughts : Bool
  thinkingBudget : Nat
deriving DecidableEq, Repr

/-- The generation config object; `topP = none` models the deleted
`topP` property. -/
structure GenerationConfig where
  topP : Option Rat
  topK : Rat
  temperature : Rat
  candidateCount : Nat
  maxOutputTokens : Rat
  stopSequences : List String
  thinkingConfig : ThinkingConfig
deriving DecidableEq, Repr

/-- Source `generateGenerationConfig` (utils.js 172-195). -/
def generateGenerationConfig (cfg : ConfigDefaults) (parameters : GenParams)
    (enableThinking : Bool) (actualModelName : String) : GenerationConfig :=
  let g : GenerationConfig := {
    topP := some (parameters.top_p.getD cfg.top_p)
    topK := parameters.top_k.getD cfg.top_k
    temperature := parameters.temperature.getD cfg.temperature
    candidateCount := 1
    maxOutputTokens := parameters.max_tokens.getD cfg.max_tokens
    stopSequences :=
      ["<|user|>", "<|bot|>", "<|context_request|>", "<|endoftext|>",
        "<|end_of_turn|>"]
    thinkingConfig := ⟨enableThinking, if enableThinking then 1024 else 0⟩ }
  if enableThinking && strContains actualModelName "claude" then
    { g with topP := none }
  else g

/-- Key fact behind the sanitizer's behaviour: `cleanJsonSchema` adds the
root to `visited` before calling `cleanObject`, whose own visited check
(marked "also check on recursive calls") then fires immediately, so any
already-visited object or array cleans to the circular marker. -/
theorem cleanObjectG_visited (h : List GVal) (f : Nat) (V : List Nat) (i : Nat)
    (hobj : isObjTypeG (getNode h i) = true) (hmem : i ∈ V) :
    cleanObjectG h (f+1) V i = some (circularMarker, V) := by
  have hc : V.contains i = true := by
    simpa using hmem
  cases hn : getNode h i <;> simp [isObjTypeG, hn] at hobj <;>
    simp [cleanObjectG, hn, hc, isObjTypeG, hmem]

/-- Every object or array root sanitizes to the circular marker. -/
theorem cleanJsonSchemaG_collapse (h : List GVal) (f : Nat) (r : Nat)
    (hobj : isObjTypeG (getNode h r) = true) :
    cleanJsonSchemaG h (f+1) r = some circularMarker := by
  have hv := cleanObjectG_visited h f [r] r hobj (by simp)
  cases hn : getNode h r <;> simp [isObjTypeG, hn] at hobj <;>
    simp_all [cleanJsonSchemaG, hn]

/-- C2: refuted on the code (the claim matches the intent, the code has a
slip).  Sanitizing the plain object `{}` yields the circular-reference
marker `{type: "object", description: "[Circular Reference]"}` — an
object-typed node with no `properties` key at all, violating the claimed
invariant; the same happens for every object or array input. -/
theorem C2_output_invariants_failing :
    cleanJsonSchemaT (.jobj []) 5 =
      some (.jobj [("type", .jstr "object"),
        ("description", .jstr "[Circular Reference]")]) ∧
    lookupJ [("type", JVal.jstr "object"),
      ("description", JVal.jstr "[Circular Reference]")] "properties" = none :=
  ⟨rfl, rfl⟩

/-- C3: refuted on the code.  Sanitizing `{type: ["string", "null"]}`
actually returns the circular marker (root-visited slip); and even with
that slip bypassed (running `cleanObject` on the same node with an empty
visited set) the result is `{type: "string"}` with no `nullable` key,
because `"null"` is filtered out by the `VALID_TYPES` check before the
`includes('null')` test. -/
theorem C3_type_array_failing :
    cleanJsonSchemaT (.jobj [("type", .jarr [.jstr "string", .jstr "null"])])
        8 =
      some (.jobj [("type", .jstr "object"),
        ("description", .jstr "[Circular Reference]")]) ∧
    cleanObjectG [.vstr "string", .vstr "null", .varr [0, 1],
        .vobj [("type", 2)]] 8 [] 3 =
      some (.jobj [("type", .jstr "string")], [3]) ∧
    lookupJ [("type", JVal.jstr "string")] "nullable" = none :=
  ⟨rfl, rfl, rfl⟩

/-- C7: refuted on the code.  On the cyclic arena `{properties: {self:
<root>}}` (node 1's `self` points back at node 0) the sanitizer does
terminate, but the whole result is the circular marker at the root —
not a structured node carrying the marker at the cycle point.  With the
root-visited slip bypassed, the code does produce the claimed shape
`{properties: {self: marker}, type: "object"}`. -/
theorem C7_cycle_failing :
    cleanJsonSchemaG [.vobj [("properties", 1)], .vobj [("self", 0)]] 10 0 =
      some (.jobj [("type", .jstr "object"),
        ("description", .jstr "[Circular Reference]")]) ∧
    cleanObjectG [.vobj [("properties", 1)], .vobj [("self", 0)]] 10 [] 0 =
      some (.jobj [("properties", .jobj [("self",
          .jobj [("type", .jstr "object"),
            ("description", .jstr "[Circular Reference]")])]),
        ("type", .jstr "object")], [0]) :=
  ⟨rfl, rfl⟩

/-- Reading the node just appended to the arena. -/
theorem getNode_concat : ∀ (h : List GVal) (v : GVal), getNode (h ++ [v]) h.length = v
  | [], _ => rfl
  | _ :: t, v => by
    have ih := getNode_concat t v
    simp only [getNode, List.cons_append, List.length_cons, List.getD_cons_succ]
    exact ih

/-- A successfully encoded object tree has an object node at its root. -/
theorem encodeTreeG_root_obj (f : Nat) (fsx : List (String × JVal)) (h : List GVal)
    (r : Nat) (h₂ : List GVal) (he : encodeTreeG f (.jobj fsx) h = some (r, h₂)) :
    ∃ ps, getNode h₂ r = .vobj ps := by
  cases f with
  | zero => simp [encodeTreeG] at he
  | succ f =>
    simp only [encodeTreeG, Option.bind_eq_bind, Option.bind_eq_some] at he
    obtain ⟨st, _, hst⟩ := he
    obtain ⟨rfl, rfl⟩ : st.2.length = r ∧ st.2 ++ [GVal.vobj st.1] = h₂ := by
      simpa using hst
    exact ⟨st.1, getNode_concat _ _⟩

/-- A successfully encoded array tree has an array node at its root. -/
theorem encodeTreeG_root_arr (f : Nat) (xs : List JVal) (h : List GVal)
    (r : Nat) (h₂ : List GVal) (he : encodeTreeG f (.jarr xs) h = some (r, h₂)) :
    ∃ es, getNode h₂ r = .varr es := by
  cases f with
  | zero => simp [encodeTreeG] at he
  | succ f =>
    simp only [encodeTreeG, Option.bind_eq_bind, Option.bind_eq_some] at he
    obtain ⟨st, _, hst⟩ := he
    obtain ⟨rfl, rfl⟩ : st.2.length = r ∧ st.2 ++ [GVal.varr st.1] = h₂ := by
      simpa using hst
    exact ⟨st.1, getNode_concat _ _⟩

/-- C1: the sanitizer is idempotent, exactly as claimed — though for the
degenerate reason established in `cleanJsonSchemaG_collapse`: primitives
pass through unchanged (a fixed point), and every object or array input
maps to the circular marker, which itself maps to the circular marker. -/
theorem C1_sanitizer_idempotent (t : JVal) (f₁ f₂ : Nat) (y : JVal)
    (h₁ : cleanJsonSchemaT t f₁ = some y) (hf : 2 ≤ f₂) :
    cleanJsonSchemaT y f₂ = some y := by
  obtain ⟨k, rfl⟩ : ∃ k, f₂ = k + 2 := ⟨f₂ - 2, by omega⟩
  unfold cleanJsonSchemaT at h₁
  cases he : encodeTreeG f₁ t [] with
  | none => simp [he] at h₁
  | some rh =>
    obtain ⟨r, hh⟩ := rh
    rw [he] at h₁
    simp only [Option.some_bind] at h₁
    cases t with
    | jnull =>
      cases f₁ with
      | zero => simp [encodeTreeG] at he
      | succ f₁ =>
        obtain ⟨rfl, rfl⟩ : 0 = r ∧ [GVal.vnull] = hh := by
          simpa [encodeTreeG] using he
        obtain rfl : JVal.jnull = y := by
          simpa [cleanJsonSchemaG, getNode] using h₁
        simp [cleanJsonSchemaT, encodeTreeG, cleanJsonSchemaG, getNode]
    | jundefined =>
      cases f₁ with
      | zero => simp [encodeTreeG] at he
      | succ f₁ =>
        obtain ⟨rfl, rfl⟩ : 0 = r ∧ [GVal.vundefined] = hh := by
          simpa [encodeTreeG] using he
        obtain rfl : JVal.jundefined = y := by
          simpa [cleanJsonSchemaG, getNode] using h₁
        simp [cleanJsonSchemaT, encodeTreeG, cleanJsonSchemaG, getNode]
    | jbool b =>
      cases f₁ with
      | zero => simp [encodeTreeG] at he
      | succ f₁ =>
        obtain ⟨rfl, rfl⟩ : 0 = r ∧ [GVal.vbool b] = hh := by
          simpa [encodeTreeG] using he
        obtain rfl : JVal.jbool b = y := by
          simpa [cleanJsonSchemaG, getNode] using h₁
        simp [cleanJsonSchemaT, encodeTreeG, cleanJsonSchemaG, getNode]
    | jnum q =>
      cases f₁ with
      | zero => simp [encodeTreeG] at he
      | succ f₁ =>
        obtain ⟨rfl, rfl⟩ : 0 = r ∧ [GVal.vnum q] = hh := by
          simpa [encodeTreeG] using he
        obtain rfl : JVal.jnum q = y := by
          simpa [cleanJsonSchemaG, getNode] using h₁
        simp [cleanJsonSchemaT, encodeTreeG, cleanJsonSchemaG, getNode]
    | jstr s =>
      cases f₁ with
      | zero => simp [encodeTreeG] at he
      | succ f₁ =>
        obtain ⟨rfl, rfl⟩ : 0 = r ∧ [GVal.vstr s] = hh := by
          simpa [encodeTreeG] using he
        obtain rfl : JVal.jstr s = y := by
          simpa [cleanJsonSchemaG, getNode] using h₁
        simp [cleanJsonSchemaT, encodeTreeG, cleanJsonSchemaG, getNode]
    | jarr xs =>
      obtain ⟨es, hroot⟩ := encodeTreeG_root_arr f₁ xs [] r hh he
      cases f₁ with
      | zero => simp [cleanJsonSchemaG, hroot, cleanObjectG] at h₁
      | succ f₁ =>
        rw [cleanJsonSchemaG_collapse hh f₁ r (by simp [isObjTypeG, hroot])] at h₁
        obtain rfl : circularMarker = y := by simpa using h₁
        have henc : encodeTreeG (k+2) circularMarker [] =
            some (2, [.vstr "object", .vstr "[Circular Reference]",
              .vobj [("type", 0), ("description", 1)]]) := by
          simp [circularMarker, encodeTreeG]
        have hclean := cleanJsonSchemaG_collapse
          [.vstr "object", .vstr "[Circular Reference]",
            .vobj [("type", 0), ("description", 1)]] (k+1) 2
          (by simp [getNode, isObjTypeG])
        unfold cleanJsonSchemaT
        rw [henc]
        simp only [Option.some_bind]
        exact hclean
    | jobj fsx =>
      obtain ⟨ps, hroot⟩ := encodeTreeG_root_obj f₁ fsx [] r hh he
      cases f₁ with
      | zero => simp [cleanJsonSchemaG, hroot, cleanObjectG] at h₁
      | succ f₁ =>
        rw [cleanJsonSchemaG_collapse hh f₁ r (by simp [isObjTypeG, hroot])] at h₁
        obtain rfl : circularMarker = y := by simpa using h₁
        have henc : encodeTreeG (k+2) circularMarker [] =
            some (2, [.vstr "object", .vstr "[Circular Reference]",
              .vobj [("type", 0), ("description", 1)]]) := by
          simp [circularMarker, encodeTreeG]
        have hclean := cleanJsonSchemaG_collapse
          [.vstr "object", .vstr "[Circular Reference]",
            .vobj [("type", 0), ("description", 1)]] (k+1) 2
          (by simp [getNode, isObjTypeG])
        unfold cleanJsonSchemaT
        rw [henc]
        simp only [Option.some_bind]
        exact hclean

/-- Witness for C1 at a concrete input. -/
theorem C1_sanitizer_idempotent_witness :
    cleanJsonSchemaT JVal.jnull 4 = some JVal.jnull :=
  C1_sanitizer_idempotent JVal.jnull 1 4 JVal.jnull rfl (by decide)

/-- C5 refuting instance: the fixed stop-sequence list has 5 tokens, not 4. -/
theorem C5_counterexample :
    (generateGenerationConfig ⟨1, 1, 1, 1⟩ ⟨none, none, none, none⟩ false
        "m").stopSequences.length ≠ 4 := by
  decide

/-- C5 as amended: for every configuration, parameter set, thinking flag
and model name, the generation config carries the same fixed
stop-sequence list — of exactly 5 tokens. -/
theorem C5_stop_sequences (cfg : ConfigDefaults) (p : GenParams) (e : Bool)
    (m : String) :
    (generateGenerationConfig cfg p e m).stopSequences =
      ["<|user|>", "<|bot|>", "<|context_request|>", "<|endoftext|>",
        "<|end_of_turn|>"] ∧
    (generateGenerationConfig cfg p e m).stopSequences.length = 5 := by
  unfold generateGenerationConfig
  by_cases hb : (e && strContains m "claude") = true <;> simp [hb]

/-- Dropping a satisfied prefix twice is the same as dropping it once. -/
theorem dropWhile_dropWhile (p : Char → Bool) (l : List Char) :
    (l.dropWhile p).dropWhile p = l.dropWhile p := by
  induction l with
  | nil => rfl
  | cons c r ih =>
    by_cases h : p c
    · simp [List.dropWhile_cons, h, ih]
    · simp [List.dropWhile_cons, h]

/-- The length of `dropWhile` never exceeds the input length. -/
theorem length_dropWhile_le (p : Char → Bool) (l : List Char) :
    (l.dropWhile p).length ≤ l.length := by
  induction l with
  | nil => simp
  | cons c r ih =>
    by_cases h : p c
    · simp only [List.dropWhile_cons, if_pos h, List.length_cons]
      omega
    · simp [List.dropWhile_cons, h]

/-- A list unchanged by `dropWhile` has a head violating the predicate. -/
theorem dropWhile_head_false (p : Char → Bool) (c : Char) (r : List Char)
    (h : (c :: r).dropWhile p = c :: r) : p c = false := by
  cases hp : p c
  · rfl
  · rw [List.dropWhile_cons, if_pos hp] at h
    have hle := length_dropWhile_le p r
    have := congrArg List.length h
    simp at this
    omega

/-- `dropWhile` returns a suffix. -/
theorem dropWhile_suffix_aux (p : Char → Bool) (l : List Char) :
    ∃ m, m ++ l.dropWhile p = l := by
  induction l with
  | nil => exact ⟨[], rfl⟩
  | cons c r ih =>
    by_cases h : p c
    · obtain ⟨m, hm⟩ := ih
      exact ⟨c :: m, by simp [List.dropWhile_cons, h, hm]⟩
    · exact ⟨[], by simp [List.dropWhile_cons, h]⟩

/-- JS `trim` is idempotent (the normalization invariant the spec relies
on for cache keys). -/
theorem jsTrim_idem (s : String) : jsTrim (jsTrim s) = jsTrim s := by
  unfold jsTrim
  have htl : (String.mk (((s.toList.dropWhile Char.isWhitespace).reverse.dropWhile
      Char.isWhitespace).reverse)).toList =
      ((s.toList.dropWhile Char.isWhitespace).reverse.dropWhile
        Char.isWhitespace).reverse := rfl
  rw [htl]
  set t1 := s.toList.dropWhile Char.isWhitespace with ht1
  set t2 := (t1.reverse.dropWhile Char.isWhitespace).reverse with ht2
  have hA : t2.dropWhile Char.isWhitespace = t2 := by
    obtain ⟨m, hm⟩ := dropWhile_suffix_aux Char.isWhitespace t1.reverse
    have hpre : t1 = t2 ++ m.reverse := by
      have := congrArg List.reverse hm
      simpa [ht2] using this.symm
    cases hc : t2 with
    | nil => rfl
    | cons c rest =>
      have hh : t1.dropWhile Char.isWhitespace = t1 := by
        rw [ht1]; exact dropWhile_dropWhile _ _
      have hcc : Char.isWhitespace c = false := by
        apply dropWhile_head_false Char.isWhitespace c (rest ++ m.reverse)
        have : t1 = c :: (rest ++ m.reverse) := by simp [hpre, hc]
        rw [← this]; exact hh
      rw [List.dropWhile_cons, if_neg (by simp [hcc])]
  have hB : t2.reverse.dropWhile Char.isWhitespace = t2.reverse := by
    rw [ht2, List.reverse_reverse]
    exact dropWhile_dropWhile _ _
  rw [hA, hB, List.reverse_reverse]


/-- `Map.get` after `Map.set`: the written key reads the new value,
other keys are unaffected. -/
theorem jsMapGet_set {α : Type} (m : List (String × α)) (k k₂ : String) (v : α) :
    jsMapGet (jsMapSet m k v) k₂ = if k = k₂ then some v else jsMapGet m k₂ := by
  induction m with
  | nil => simp only [jsMapSet, jsMapGet]
  | cons hd tl ih =>
    obtain ⟨k₀, v₀⟩ := hd
    by_cases h1 : k₀ = k
    · subst h1
      by_cases h2 : k₀ = k₂ <;> simp [jsMapSet, jsMapGet, h2]
    · by_cases h2 : k₀ = k₂
      · subst h2
        have hkk : ¬k = k₀ := fun he => h1 he.symm
        simp [jsMapSet, jsMapGet, h1, hkk]
      · simp [jsMapSet, jsMapGet, h1, h2, ih]

/-- Reading back the key just written. -/
theorem jsMapGet_set_self {α : Type} (m : List (String × α)) (k : String) (v : α) :
    jsMapGet (jsMapSet m k v) k = some v := by
  rw [jsMapGet_set, if_pos rfl]

/-- Writing any key never disturbs an existing binding with the same value. -/
theorem jsMapGet_set_preserve {α : Type} (m : List (String × α)) (k k₂ : String)
    (v : α) (hm : jsMapGet m k₂ = some v) :
    jsMapGet (jsMapSet m k v) k₂ = some v := by
  rw [jsMapGet_set]
  split_ifs with h
  · rfl
  · exact hm

/-- A successful read after a write comes either from the write or from
the underlying map. -/
theorem jsMapGet_set_cases {α : Type} (m : List (String × α)) (k k₂ : String)
    (v e : α) (hm : jsMapGet (jsMapSet m k v) k₂ = some e) :
    e = v ∨ jsMapGet m k₂ = some e := by
  rw [jsMapGet_set] at hm
  split_ifs at hm
  · exact Or.inl (Option.some.inj hm).symm
  · exact Or.inr hm

/-- An empty trimmed form forces the original to be empty. -/
theorem jsTrim_ne_empty (t : String) (ht : jsTrim t ≠ "") : t ≠ "" := by
  intro h
  exact ht (by rw [h]; rfl)

/-- The three-key write chain of `registerTextThoughtSignature`, with the
trimmed and normalized keys abstracted (identical Boolean conditions). -/
def registerChain (t s trimmed normalized : String) : List (String × SigEntry) :=
  if trimmed != "" && trimmed != normalized then
    jsMapSet
      (if normalized != "" then
        jsMapSet (if t != "" then jsMapSet [] t ⟨s, t⟩ else []) normalized ⟨s, t⟩
      else (if t != "" then jsMapSet [] t ⟨s, t⟩ else []))
      trimmed ⟨s, t⟩
  else
    (if normalized != "" then
      jsMapSet (if t != "" then jsMapSet [] t ⟨s, t⟩ else []) normalized ⟨s, t⟩
    else (if t != "" then jsMapSet [] t ⟨s, t⟩ else []))

/-- `registerTextThoughtSignature` on an empty cache is the write chain. -/
theorem registerText_eq (t s : String) (ht0 : t ≠ "") (hs : s ≠ "") :
    registerTextThoughtSignature [] t s =
      registerChain t s (jsTrim t) (normalizeTextForSignature (jsTrim t)) := by
  unfold registerTextThoughtSignature registerChain
  rw [if_neg (by simp [ht0, hs])]

/-- C6 (amended): after registering a signature for a text whose trimmed
form is non-empty, lookup succeeds with the stored entry on the raw
text, on the trimmed text, and on any text whose non-empty trimmed form
normalizes to the registered text's (non-empty) normalized key; lookup
of whitespace-only input always misses, on any cache state. -/
theorem C6_text_cache_roundtrip (t s x z : String) (m : List (String × SigEntry))
    (ht : jsTrim t ≠ "") (hs : s ≠ "")
    (hx1 : jsTrim x ≠ "")
    (hx2 : normalizeTextForSignature (jsTrim x) =
      normalizeTextForSignature (jsTrim t))
    (hx3 : normalizeTextForSignature (jsTrim t) ≠ "")
    (hz : jsTrim z = "") :
    getTextThoughtSignature (registerTextThoughtSignature [] t s) t =
        some ⟨s, t⟩ ∧
    getTextThoughtSignature (registerTextThoughtSignature [] t s) (jsTrim t) =
        some ⟨s, t⟩ ∧
    getTextThoughtSignature (registerTextThoughtSignature [] t s) x =
        some ⟨s, t⟩ ∧
    getTextThoughtSignature m z = none := by
  have ht0 : t ≠ "" := jsTrim_ne_empty t ht
  have hre := registerText_eq t s ht0 hs
  set P : SigEntry := ⟨s, t⟩ with hP
  set N := normalizeTextForSignature (jsTrim t) with hN
  set T := jsTrim t with hT
  have hTT : jsTrim T = T := by
    rw [hT]
    exact jsTrim_idem t
  have e3 : (if (t != "") = true then jsMapSet ([] : List (String × SigEntry)) t P
      else []) = jsMapSet [] t P := by
    simp [ht0]
  have e2 : (if (N != "") = true then jsMapSet (jsMapSet [] t P) N P
      else jsMapSet [] t P) = jsMapSet (jsMapSet [] t P) N P := by
    simp [hx3]
  have hchain : registerChain t s T N =
      (if (T != "" && T != N) = true then
        jsMapSet (jsMapSet (jsMapSet [] t P) N P) T P
      else jsMapSet (jsMapSet [] t P) N P) := by
    unfold registerChain
    rw [e3, e2]
  have hrawget : jsMapGet (registerChain t s T N) t = some P := by
    rw [hchain]
    by_cases c1 : (T != "" && T != N) = true
    · rw [if_pos c1]
      exact jsMapGet_set_preserve _ _ _ _
        (jsMapGet_set_preserve _ _ _ _ (jsMapGet_set_self _ _ _))
    · rw [if_neg c1]
      exact jsMapGet_set_preserve _ _ _ _ (jsMapGet_set_self _ _ _)
  have htrimget : jsMapGet (registerChain t s T N) T = some P := by
    rw [hchain]
    by_cases hc : T = N
    · rw [if_neg (by simp [hc]), hc]
      exact jsMapGet_set_self _ _ _
    · rw [if_pos (by simp [ht, hc])]
      exact jsMapGet_set_self _ _ _
  have hnormget : jsMapGet (registerChain t s T N) N = some P := by
    rw [hchain]
    by_cases hc : T = N
    · rw [if_neg (by simp [hc])]
      exact jsMapGet_set_self _ _ _
    · rw [if_pos (by simp [ht, hc])]
      exact jsMapGet_set_preserve _ _ _ _ (jsMapGet_set_self _ _ _)
  have hall : ∀ k e, jsMapGet (registerChain t s T N) k = some e → e = P := by
    rw [hchain]
    intro k e hk
    have base : ∀ e₂, jsMapGet (jsMapSet (jsMapSet ([] : List (String × SigEntry))
        t P) N P) k = some e₂ → e₂ = P := by
      intro e₂ hk₂
      rcases jsMapGet_set_cases _ _ _ _ _ hk₂ with h | h
      · exact h
      · rcases jsMapGet_set_cases _ _ _ _ _ h with h' | h'
        · exact h'
        · simp [jsMapGet] at h'
    split_ifs at hk
    · rcases jsMapGet_set_cases _ _ _ _ _ hk with h | h
      · exact h
      · exact base e h
    · exact base e hk
  refine ⟨?_, ?_, ?_, ?_⟩
  · unfold getTextThoughtSignature
    rw [hre, if_neg (by simp [ht]), hrawget]
  · unfold getTextThoughtSignature
    rw [hre, hTT, if_neg (by simp [ht]), htrimget]
  · unfold getTextThoughtSignature
    rw [hre, if_neg (by simp [hx1])]
    cases h1 : jsMapGet (registerChain t s T N) x with
    | some e =>
      dsimp only
      rw [hall x e h1]
    | none =>
      dsimp only
      cases h2 : jsMapGet (registerChain t s T N) (jsTrim x) with
      | some e =>
        dsimp only
        rw [hall (jsTrim x) e h2]
      | none =>
        dsimp only
        rw [hx2, if_neg (by simp [hx3])]
        exact hnormget
  · unfold getTextThoughtSignature
    rw [if_pos (by simp [hz])]

/-- Witness for C6 at the spec's own example inputs. -/
theorem C6_text_cache_roundtrip_witness :
    getTextThoughtSignature (registerTextThoughtSignature [] "Hello " "sig")
        "Hello " = some ⟨"sig", "Hello "⟩ ∧
    getTextThoughtSignature (registerTextThoughtSignature [] "Hello " "sig")
        (jsTrim "Hello ") = some ⟨"sig", "Hello "⟩ ∧
    getTextThoughtSignature (registerTextThoughtSignature [] "Hello " "sig")
        " Hello \r\n " = some ⟨"sig", "Hello "⟩ ∧
    getTextThoughtSignature [] " " = none :=
  C6_text_cache_roundtrip "Hello " "sig" " Hello \r\n " " " []
    (by decide) (by decide) (by decide) (by decide) (by decide) (by decide)

/-- C6 refuting instance: for the whitespace-only (but non-empty, hence
truthy) text `" "`, registration does store an entry under the raw key,
yet lookup with that very text misses, so the claimed raw-text round
trip fails for such texts. -/
theorem C6_counterexample :
    registerTextThoughtSignature [] " " "sig" = [(" ", ⟨"sig", " "⟩)] ∧
    getTextThoughtSignature (registerTextThoughtSignature [] " " "sig") " " =
      none :=
  ⟨by decide, by decide⟩

/-- Shape of `handleAssistantMessage` when the extracted text is
non-empty: the merge never fires and a new `model` turn is pushed with
the text part first, then the function-call parts. -/
theorem handleAssistant_push (modelName : String) (idMap : List (String × String))
    (textMap : List (String × SigEntry)) (message : OAIMessage)
    (msgs : List AntMsg)
    (hc : jsTrim (assistantContentText message.content) ≠ "") :
    handleAssistantMessage modelName idMap textMap message msgs =
      msgs ++ [⟨"model",
        assistantTextPart (strContains modelName "gemini-3") textMap
            (assistantContentText message.content) ::
          (if 0 < message.tool_calls.length then
            message.tool_calls.map (mkFunctionCallPart idMap) else [])⟩] := by
  unfold handleAssistantMessage
  cases hl : msgs.getLast? with
  | none => simp [hc]
  | some lastm => simp [hc]

/-- Shape of `handleAssistantMessage` for a tool-call-only turn following
a `model` turn: the function-call parts are appended to that turn. -/
theorem handleAssistant_merge (modelName : String) (idMap : List (String × String))
    (textMap : List (String × SigEntry)) (message : OAIMessage)
    (init : List AntMsg) (lastm : AntMsg)
    (hr : lastm.role = "model") (htc : 0 < message.tool_calls.length)
    (hnc : jsTrim (assistantContentText message.content) = "") :
    handleAssistantMessage modelName idMap textMap message (init ++ [lastm]) =
      init ++ [⟨lastm.role, lastm.parts ++
        message.tool_calls.map (mkFunctionCallPart idMap)⟩] := by
  unfold handleAssistantMessage
  rw [List.getLast?_concat]
  simp [hr, htc, hnc, List.dropLast_concat]

/-- C4 refuting instance: with a signature-eligible model
(`gemini-3-flash`) and a cache seeded via `registerTextThoughtSignature`
with the text `"Hello "`, an assistant turn whose extracted text is
`"Hello"` emits the *cached* text `"Hello "` (with the signature), not
the extracted text — the cache does alter the text actually sent. -/
theorem C4_counterexample :
    assistantContentText (.jstr "Hello") = "Hello" ∧
    handleAssistantMessage "gemini-3-flash" []
        (registerTextThoughtSignature [] "Hello " "sig")
        ⟨"assistant", .jstr "Hello", [], ""⟩ [] =
      [⟨"model", [TurnPart.text "Hello " (some "sig")]⟩] ∧
    "Hello " ≠ "Hello" :=
  ⟨rfl, rfl, by decide⟩

/-- C4 (amended): for an assistant turn with non-empty extracted text, a
new `model` turn is pushed whose text part carries the extracted text
exactly when the model is not signature-eligible or the text-signature
cache misses; when the model name contains `gemini-3` and the cache
hits, the cached entry's original text (and its signature) is emitted
instead. -/
theorem C4_text_emission (modelName : String) (idMap : List (String × String))
    (textMap : List (String × SigEntry)) (message : OAIMessage)
    (msgs : List AntMsg)
    (hc : jsTrim (assistantContentText message.content) ≠ "") :
    handleAssistantMessage modelName idMap textMap message msgs =
      msgs ++ [⟨"model",
        TurnPart.text
          (match (if strContains modelName "gemini-3" then
              getTextThoughtSignature textMap (assistantContentText message.content)
            else none) with
          | some e => e.text
          | none => assistantContentText message.content)
          (match (if strContains modelName "gemini-3" then
              getTextThoughtSignature textMap (assistantContentText message.content)
            else none) with
          | some e =>
            if strContains modelName "gemini-3" && e.signature != "" then
              some e.signature
            else none
          | none => none) ::
        (if 0 < message.tool_calls.length then
          message.tool_calls.map (mkFunctionCallPart idMap) else [])⟩] := by
  rw [handleAssistant_push modelName idMap textMap message msgs hc]
  cases hE : (if strContains modelName "gemini-3" then
      getTextThoughtSignature textMap (assistantContentText message.content)
    else none) <;>
    simp [assistantTextPart, hE]

/-- Witness for C4 (amended) at a concrete cache-missing input. -/
theorem C4_text_emission_witness :
    handleAssistantMessage "m" [] [] ⟨"assistant", .jstr "Hi", [], ""⟩ [] =
      [] ++ [⟨"model",
        TurnPart.text
          (match (if strContains "m" "gemini-3" then
              getTextThoughtSignature [] (assistantContentText (.jstr "Hi"))
            else none) with
          | some e => e.text
          | none => assistantContentText (.jstr "Hi"))
          (match (if strContains "m" "gemini-3" then
              getTextThoughtSignature [] (assistantContentText (.jstr "Hi"))
            else none) with
          | some e =>
            if strContains "m" "gemini-3" && e.signature != "" then
              some e.signature
            else none
          | none => none) ::
        (if 0 < (⟨"assistant", .jstr "Hi", [], ""⟩ : OAIMessage).tool_calls.length then
          (⟨"assistant", .jstr "Hi", [], ""⟩ : OAIMessage).tool_calls.map
            (mkFunctionCallPart [])
        else [])⟩] :=
  C4_text_emission "m" [] [] ⟨"assistant", .jstr "Hi", [], ""⟩ [] (by decide)

/-- C8: two consecutive tool turns after one assistant turn carrying two
tool calls collapse into a single `user` backend turn holding both
function-response parts in call order; and in general a tool turn whose
preceding output turn is a `user` turn already holding a function
response is appended to it rather than opening a new turn. -/
theorem C8_tool_turn_collapsing (init : List AntMsg) (lastm : AntMsg)
    (message : OAIMessage) (hrole : lastm.role = "user")
    (hfr : lastm.parts.any isFunctionResponsePart = true) :
    openaiMessageToAntigravity [] []
        [⟨"assistant", .jnull, [⟨"c1", "f1", .jobj []⟩, ⟨"c2", "f2", .jobj []⟩], ""⟩,
         ⟨"tool", .jstr "out1", [], "c1"⟩,
         ⟨"tool", .jstr "out2", [], "c2"⟩] "m" =
      [⟨"model", [TurnPart.functionCall "c1" "f1" (.jobj []) none,
                  TurnPart.functionCall "c2" "f2" (.jobj []) none]⟩,
       ⟨"user", [TurnPart.functionResponse "c1" "f1" (.jstr "out1"),
                 TurnPart.functionResponse "c2" "f2" (.jstr "out2")]⟩] ∧
    handleToolCall message (init ++ [lastm]) =
      init ++ [⟨lastm.role, lastm.parts ++
        [mkFunctionResponse (init ++ [lastm]) message]⟩] := by
  constructor
  · rfl
  · unfold handleToolCall
    rw [List.getLast?_concat]
    simp [hrole, hfr, List.dropLast_concat]

/-- Witness for C8 at a concrete state. -/
theorem C8_tool_turn_collapsing_witness :
    openaiMessageToAntigravity [] []
        [⟨"assistant", .jnull, [⟨"c1", "f1", .jobj []⟩, ⟨"c2", "f2", .jobj []⟩], ""⟩,
         ⟨"tool", .jstr "out1", [], "c1"⟩,
         ⟨"tool", .jstr "out2", [], "c2"⟩] "m" =
      [⟨"model", [TurnPart.functionCall "c1" "f1" (.jobj []) none,
                  TurnPart.functionCall "c2" "f2" (.jobj []) none]⟩,
       ⟨"user", [TurnPart.functionResponse "c1" "f1" (.jstr "out1"),
                 TurnPart.functionResponse "c2" "f2" (.jstr "out2")]⟩] ∧
    handleToolCall ⟨"tool", .jstr "o", [], "a"⟩
        ([] ++ [⟨"user", [TurnPart.functionResponse "a" "n" .jnull]⟩]) =
      [] ++ [⟨"user", [TurnPart.functionResponse "a" "n" .jnull] ++
        [mkFunctionResponse ([] ++ [⟨"user", [TurnPart.functionResponse "a" "n" .jnull]⟩])
          ⟨"tool", .jstr "o", [], "a"⟩]⟩] :=
  C8_tool_turn_collapsing [] ⟨"user", [TurnPart.functionResponse "a" "n" .jnull]⟩
    ⟨"tool", .jstr "o", [], "a"⟩ rfl (by decide)

/-- C9: an assistant turn with tool calls and empty (or whitespace-only)
extracted text, following a `model` turn, appends its function-call
parts to that turn; an assistant turn with non-empty text always starts
a new `model` turn with the text part first, then its function-call
parts. -/
theorem C9_assistant_turn_merging (modelName : String)
    (idMap : List (String × String)) (textMap : List (String × SigEntry))
    (message m2 : OAIMessage) (init msgs2 : List AntMsg) (lastm : AntMsg)
    (hr : lastm.role = "model") (htc : 0 < message.tool_calls.length)
    (hnc : jsTrim (assistantContentText message.content) = "")
    (hc : jsTrim (assistantContentText m2.content) ≠ "") :
    handleAssistantMessage modelName idMap textMap message (init ++ [lastm]) =
      init ++ [⟨lastm.role, lastm.parts ++
        message.tool_calls.map (mkFunctionCallPart idMap)⟩] ∧
    handleAssistantMessage modelName idMap textMap m2 msgs2 =
      msgs2 ++ [⟨"model",
        assistantTextPart (strContains modelName "gemini-3") textMap
            (assistantContentText m2.content) ::
          (if 0 < m2.tool_calls.length then
            m2.tool_calls.map (mkFunctionCallPart idMap) else [])⟩] :=
  ⟨handleAssistant_merge modelName idMap textMap message init lastm hr htc hnc,
   handleAssistant_push modelName idMap textMap m2 msgs2 hc⟩

/-- Witness for C9 at concrete turns. -/
theorem C9_assistant_turn_merging_witness :
    handleAssistantMessage "m" [] [] ⟨"assistant", .jstr " ", [⟨"c3", "f3", .jobj []⟩], ""⟩
        ([] ++ [⟨"model", [TurnPart.text "hi" none]⟩]) =
      [] ++ [⟨("model" : String), [TurnPart.text "hi" none] ++
        ([⟨"c3", "f3", .jobj []⟩] : List ToolCallRec).map (mkFunctionCallPart [])⟩] ∧
    handleAssistantMessage "m" [] [] ⟨"assistant", .jstr "yo", [], ""⟩ [] =
      [] ++ [⟨"model",
        assistantTextPart (strContains "m" "gemini-3") []
            (assistantContentText (.jstr "yo")) ::
          (if 0 < (⟨"assistant", .jstr "yo", [], ""⟩ : OAIMessage).tool_calls.length then
            (⟨"assistant", .jstr "yo", [], ""⟩ : OAIMessage).tool_calls.map
              (mkFunctionCallPart [])
          else [])⟩] :=
  C9_assistant_turn_merging "m" [] [] ⟨"assistant", .jstr " ", [⟨"c3", "f3", .jobj []⟩], ""⟩
    ⟨"assistant", .jstr "yo", [], ""⟩ [] [] ⟨"model", [TurnPart.text "hi" none]⟩
    rfl (by decide) (by decide) (by decide)

/-- Thought-signature component of a backend part. -/
def partThoughtSignature : TurnPart → Option String
  | .text _ sig => sig
  | .functionCall _ _ _ sig => sig
  | _ => none

/-- C10: when the model name does not contain `gemini-3`, the converted
assistant turn is identical whatever the text-signature cache holds (the
cache is not consulted) and its text part carries no signature; the
function-call parts, by contrast, carry the id-cached signature for
every model name. -/
theorem C10_signature_gating (model₁ model₂ : String)
    (idMap : List (String × String)) (tm tm₁ tm₂ : List (String × SigEntry))
    (message : OAIMessage) (msgs : List AntMsg) (tc : ToolCallRec)
    (hns : strContains model₁ "gemini-3" = false) :
    handleAssistantMessage model₁ idMap tm₁ message msgs =
      handleAssistantMessage model₁ idMap tm₂ message msgs ∧
    (jsTrim (assistantContentText message.content) ≠ "" →
      handleAssistantMessage model₁ idMap tm message msgs =
        msgs ++ [⟨"model",
          TurnPart.text (assistantContentText message.content) none ::
            (if 0 < message.tool_calls.length then
              message.tool_calls.map (mkFunctionCallPart idMap) else [])⟩]) ∧
    (jsTrim (assistantContentText message.content) ≠ "" →
      handleAssistantMessage model₂ idMap tm message msgs =
        msgs ++ [⟨"model",
          assistantTextPart (strContains model₂ "gemini-3") tm
              (assistantContentText message.content) ::
            (if 0 < message.tool_calls.length then
              message.tool_calls.map (mkFunctionCallPart idMap) else [])⟩]) ∧
    partThoughtSignature (mkFunctionCallPart idMap tc) =
      (if tc.id = "" then none
       else
         match jsMapGet idMap tc.id with
         | some s => if s ≠ "" then some s else none
         | none => none) := by
  refine ⟨?_, ?_, ?_, ?_⟩
  · unfold handleAssistantMessage
    simp [assistantTextPart, hns]
  · intro hc
    rw [handleAssistant_push model₁ idMap tm message msgs hc, hns]
    simp [assistantTextPart]
  · intro hc
    exact handleAssistant_push model₂ idMap tm message msgs hc
  · by_cases hid : tc.id = ""
    · simp [mkFunctionCallPart, getThoughtSignature, partThoughtSignature, hid]
    · cases hg : jsMapGet idMap tc.id with
      | none =>
        simp [mkFunctionCallPart, getThoughtSignature, partThoughtSignature, hid, hg]
      | some s =>
        by_cases hse : s = "" <;>
          simp [mkFunctionCallPart, getThoughtSignature, partThoughtSignature,
            hid, hg, hse]

/-- Witness for C10 at concrete inputs. -/
theorem C10_signature_gating_witness :
    handleAssistantMessage "claude-x" [("c9", "SIG")] [] ⟨"assistant", .jstr "yo", [], ""⟩ [] =
      handleAssistantMessage "claude-x" [("c9", "SIG")]
        [("yo", ⟨"s2", "yo"⟩)] ⟨"assistant", .jstr "yo", [], ""⟩ [] ∧
    (jsTrim (assistantContentText (⟨"assistant", .jstr "yo", [], ""⟩ : OAIMessage).content) ≠ "" →
      handleAssistantMessage "claude-x" [("c9", "SIG")] [] ⟨"assistant", .jstr "yo", [], ""⟩ [] =
        [] ++ [⟨"model",
          TurnPart.text (assistantContentText (⟨"assistant", .jstr "yo", [], ""⟩ : OAIMessage).content) none ::
            (if 0 < (⟨"assistant", .jstr "yo", [], ""⟩ : OAIMessage).tool_calls.length then
              (⟨"assistant", .jstr "yo", [], ""⟩ : OAIMessage).tool_calls.map
                (mkFunctionCallPart [("c9", "SIG")])
            else [])⟩]) ∧
    (jsTrim (assistantContentText (⟨"assistant", .jstr "yo", [], ""⟩ : OAIMessage).content) ≠ "" →
      handleAssistantMessage "gemini-3-pro" [("c9", "SIG")] [] ⟨"assistant", .jstr "yo", [], ""⟩ [] =
        [] ++ [⟨"model",
          assistantTextPart (strContains "gemini-3-pro" "gemini-3") []
              (assistantContentText (⟨"assistant", .jstr "yo", [], ""⟩ : OAIMessage).content) ::
            (if 0 < (⟨"assistant", .jstr "yo", [], ""⟩ : OAIMessage).tool_calls.length then
              (⟨"assistant", .jstr "yo", [], ""⟩ : OAIMessage).tool_calls.map
                (mkFunctionCallPart [("c9", "SIG")])
            else [])⟩]) ∧
    partThoughtSignature (mkFunctionCallPart [("c9", "SIG")] ⟨"c9", "f9", .jobj []⟩) =
      (if (⟨"c9", "f9", .jobj []⟩ : ToolCallRec).id = "" then none
       else
         match jsMapGet [("c9", "SIG")] (⟨"c9", "f9", .jobj []⟩ : ToolCallRec).id with
         | some s => if s ≠ "" then some s else none
         | none => none) :=
  C10_signature_gating "claude-x" "gemini-3-pro" [("c9", "SIG")] []
    [] [("yo", ⟨"s2", "yo"⟩)] ⟨"assistant", .jstr "yo", [], ""⟩ []
    ⟨"c9", "f9", .jobj []⟩ (by decide)
